import Mathlib

/-!
Verification development for the `bind` request-binding package.

The Go sources are shallowly embedded: pure functions (content-type
resolution, error rendering) become Lean functions on `String`;
the reflective recursive bind pass becomes a function over an explicit
value tree `GoVal` that records exactly the distinctions the reflection
code observes (pointer-ness, nil-ness, Binder conformance, struct
fields with their declared-type conformance); decoders are abstracted
as outcome functions since the wire codecs are external collaborators.
-/

namespace BindPkg

/-- Model of a Go `error` value as produced and consumed by this package:
either a plain error (e.g. `errors.New` / `fmt.Errorf` without `%w`),
or a `BindError{Field, Err}`. -/
inductive Err where
  | plain (msg : String)
  | bindError (field : String) (cause : Err)
deriving Repr, DecidableEq

/-- `errors.As(err, &BindError{})` on the error values this package
produces: a `BindError` matches directly; a plain error (no `Unwrap`)
does not. -/
def Err.isBindError : Err → Bool
  | .bindError _ _ => true
  | .plain _ => false

/-- `BindError.Error()` / plain-error `Error()` rendering, from
`func (e BindError) Error() string`. -/
def Err.msg : Err → String
  | .plain m => m
  | .bindError f c =>
      if f ≠ "" then "bind failed on field '" ++ f ++ "': " ++ c.msg
      else "bind failed: " ++ c.msg

/-- `BindError.Unwrap` returns the wrapped cause; a plain error has none. -/
def Err.unwrap : Err → Option Err
  | .plain _ => none
  | .bindError _ c => some c

/-- `ContentType` enumeration from content_type.go. -/
inductive ContentType where
  | unknown
  | plainText
  | html
  | json
  | xml
  | form
  | multipart
  | eventStream
deriving Repr, DecidableEq

/-- `strings.Split(s, ";")[0]`: the prefix of `s` before the first
semicolon (the whole string when there is none). -/
def stripParams (s : String) : String :=
  String.mk (s.data.takeWhile (fun c => c ≠ ';'))

/-- Model of `strings.TrimSpace`: drop whitespace from both ends. -/
def trimSpace (s : String) : String :=
  String.mk (((s.data.dropWhile Char.isWhitespace).reverse.dropWhile
    Char.isWhitespace).reverse)

/-- `GetContentType` from content_type.go: strip parameters after the
first `;`, trim whitespace, exact-match against the fixed table. -/
def GetContentType (s : String) : ContentType :=
  match trimSpace (stripParams s) with
  | "text/plain" => .plainText
  | "text/html" | "application/xhtml+xml" => .html
  | "application/json" | "text/javascript" | "application/problem+json"
  | "application/vnd.api+json" => .json
  | "text/xml" | "application/xml" => .xml
  | "application/x-www-form-urlencoded" => .form
  | "multipart/form-data" => .multipart
  | "text/event-stream" => .eventStream
  | _ => .unknown

/-- The recognized media-type strings of the table in `GetContentType`. -/
def recognizedTypes : List String :=
  ["text/plain", "text/html", "application/xhtml+xml",
   "application/json", "text/javascript", "application/problem+json",
   "application/vnd.api+json", "text/xml", "application/xml",
   "application/x-www-form-urlencoded", "multipart/form-data",
   "text/event-stream"]

/-- An abstract request: the recursive pass and the decoders only consume
it opaquely; `DefaultDecoder` reads its Content-Type header. -/
structure Request where
  contentType : String

/-- `errors.New("bind: unsupported content type")` from `DefaultDecoder`. -/
def unsupportedContentTypeErr : Err := .plain "bind: unsupported content type"

/-- `DefaultDecoder` from decoder.go: resolve the Content-Type header,
look the kind up in the registry, delegate or fail.  The registry is
passed explicitly (in the source it is the package-level `decoders` map
guarded by `decoderMu`); a registered decoder is abstracted as its
outcome function on the request. -/
def DefaultDecoder (reg : ContentType → Option (Request → Option Err))
    (r : Request) : Option Err :=
  match reg (GetContentType r.contentType) with
  | some fn => fn r
  | none => some unsupportedContentTypeErr

/-- The built-in `decoders` registry: JSON, XML, form and multipart have
decoders (abstracted as the four outcome functions); every other kind,
including Unknown, has none. -/
def builtinRegistry (dj dx df dm : Request → Option Err) :
    ContentType → Option (Request → Option Err)
  | .json => some dj
  | .xml => some dx
  | .form => some df
  | .multipart => some dm
  | _ => none

/-- `maxRecursionDepth` from part_000. -/
def maxRecursionDepth : Nat := 1000

/-- `fmt.Errorf("max recursion depth (%d) exceeded", maxRecursionDepth)`:
a plain error (no `%w`, so it wraps nothing). -/
def depthExceededErr : Err :=
  .plain ("max recursion depth (" ++ toString maxRecursionDepth ++ ") exceeded")

mutual
/-- A Go value as observed by the reflective `binder` function: a nil
pointer, a non-nil pointer (one level of indirection), a non-struct
value, or a struct.  `impl` records whether `rv.Addr().Type()` implements
the `Binder` interface (for pointers this is always false: Go pointer
types have no method sets of their own); `res`/`own` record the outcome
of the value's own `Bind(r)` method on the fixed request of the run. -/
inductive GoVal where
  | ptrNil
  | ptrTo (v : GoVal)
  | prim (impl : Bool) (res : Option Err)
  | struc (impl : Bool) (own : Option Err) (fields : List GoField)
/-- A struct field as observed by reflection: its (possibly promoted)
name from `rt.Field(i).Name`, whether it is an embedded field
(`rt.Field(i).Anonymous` — never consulted by the source), whether its
declared type implements `Binder` (`rt.Field(i).Type.Implements`), and
its value. -/
inductive GoField where
  | mk (name : String) (embedded : Bool) (declImpl : Bool) (val : GoVal)
end

def GoField.name : GoField → String
  | .mk n _ _ _ => n

def GoField.embedded : GoField → Bool
  | .mk _ e _ _ => e

def GoField.declImpl : GoField → Bool
  | .mk _ _ i _ => i

def GoField.val : GoField → GoVal
  | .mk _ _ _ v => v

/-- `rv.Addr().Type().Implements(binderType)` on the dereferenced value. -/
def implB : GoVal → Bool
  | .ptrNil => false
  | .ptrTo _ => false
  | .prim i _ => i
  | .struc i _ _ => i

/-- The field-path join of `binder`:
`fullPath := fieldName; if parentField != "" { fullPath = parentField + "." + fieldName }`. -/
def dotJoin (p n : String) : String :=
  if p = "" then n else p ++ "." ++ n

mutual
/-- The recursive `binder(r, rv, parentField, depth)` function from
part_000, instrumented with a trace: the first component lists, in
order, the `parentField` argument of every `Bind` invocation the call
performs; the second is the returned error (`none` = nil). -/
def binderT (v : GoVal) (parentField : String) (depth : Nat) :
    List String × Option Err :=
  if depth > maxRecursionDepth then ([], some depthExceededErr)
  else
    match v with
    | .ptrNil => ([], none)
    | .ptrTo w => derefed w parentField depth
    | .prim i res => derefed (.prim i res) parentField depth
    | .struc i own fields => derefed (.struc i own fields) parentField depth
termination_by (sizeOf v, 1)

/-- The body of `binder` after the pointer dereference step: the
`Implements` check, the non-struct direct invocation, and the struct
member loop followed by the struct's own `Bind`. -/
def derefed (rv : GoVal) (parentField : String) (depth : Nat) :
    List String × Option Err :=
  if implB rv = false then ([], none)
  else
    match rv with
    | .prim _ res =>
      match res with
      | some e => ([parentField], some (.bindError parentField e))
      | none => ([parentField], none)
    | .struc _ own fields =>
      match runFields fields parentField depth with
      | (tr, some e) => (tr, some e)
      | (tr, none) =>
        match own with
        | some e => (tr ++ [parentField], some (.bindError parentField e))
        | none => (tr ++ [parentField], none)
    | _ => ([], none)
termination_by (sizeOf rv, 0)

/-- The member loop of `binder`: iterate the cached `binderFields`
indices (here: the fields whose declared type implements `Binder`, in
declaration order), recurse at `depth+1`, propagate an error that is
already a `BindError` unchanged and wrap any other error at the member's
full path. -/
def runFields (fields : List GoField) (parentField : String) (depth : Nat) :
    List String × Option Err :=
  match fields with
  | [] => ([], none)
  | .mk nm _emb impl fval :: rest =>
    if impl = false then runFields rest parentField depth
    else
      let fullPath := dotJoin parentField nm
      match binderT fval fullPath (depth + 1) with
      | (tr, some e) =>
        (tr, some (if e.isBindError then e else .bindError fullPath e))
      | (tr, none) =>
        match runFields rest parentField depth with
        | (tr2, r2) => (tr ++ tr2, r2)
termination_by (sizeOf fields, 2)
end

/-- The cached structural descriptor (`binderFields`): positions of the
members whose declared type implements `Binder`, in declaration order.
The `sync.Map` cache is semantically transparent (the scan is
deterministic), so it is modelled by the scan itself. -/
def descriptor (fields : List GoField) : List GoField :=
  fields.filter fun f => f.declImpl

/-- The recursive call `binder(r, field, fullPath, depth+1)` issued by
the member loop for a member `f` of a struct at path `p`, depth `d`. -/
def memberRun (p : String) (d : Nat) (f : GoField) : List String × Option Err :=
  binderT f.val (dotJoin p f.name) (d + 1)

/-- `Action(r, v)` from part_000, instrumented with the trace of `Bind`
invocations.  The decode step `getDecode()(r, v)` is abstracted by its
outcome `decodeRes`; on failure the cause is wrapped as
`BindError{Err: err}` (empty field) and the recursive pass never runs. -/
def ActionT (decodeRes : Option Err) (v : GoVal) : List String × Option Err :=
  match decodeRes with
  | some e => ([], some (.bindError "" e))
  | none => binderT v "" 0

/-- The error component of `Action`. -/
def Action (decodeRes : Option Err) (v : GoVal) : Option Err :=
  (ActionT decodeRes v).2

/-- An uploaded file handle (`*multipart.FileHeader`), opaque here. -/
structure FileHeader where
  id : Nat
deriving Repr, DecidableEq

/-- The declared type of a struct member, as far as `bindFiles`
distinguishes it: exactly `*multipart.FileHeader`, exactly
`[]*multipart.FileHeader`, or anything else. -/
inductive FFKind where
  | fileHeaderPtr
  | fileHeaderSlice
  | other
deriving Repr, DecidableEq

/-- A destination struct member as observed by `bindFiles`: its `form`
tag (`""` when absent), whether it is assignable (`CanSet`), and its
declared type shape. -/
structure FormField where
  tag : String
  canSet : Bool
  kind : FFKind

/-- What `bindFiles` assigns into a member. -/
inductive FileAssign where
  | one (h : FileHeader)
  | many (hs : List FileHeader)
deriving Repr, DecidableEq

/-- The destination argument of `bindFiles` as far as it inspects it:
not a pointer, a pointer to a non-struct, or a pointer to a struct. -/
inductive FilesDest where
  | nonPtr
  | ptrNonStruct
  | ptrStruct (fields : List FormField)

/-- One iteration of the `bindFiles` loop for one member: skip when the
tag is absent, when `r.MultipartForm.File[formTag]` is missing or empty,
when the member is not assignable, or when its type matches neither
file-handle shape; otherwise assign the first file or the whole slice. -/
def bindFilesField (formFiles : String → List FileHeader) (f : FormField) :
    Option FileAssign :=
  if f.tag = "" then none
  else
    match formFiles f.tag with
    | [] => none
    | h0 :: hs =>
      if f.canSet = false then none
      else
        match f.kind with
        | .fileHeaderPtr => some (.one h0)
        | .fileHeaderSlice => some (.many (h0 :: hs))
        | .other => none

/-- `bindFiles(r, v)` from decoder.go: error on a non-pointer
destination, no-op on a pointer to a non-struct, and otherwise the
per-member assignments (the run never fails past the pointer check). -/
def bindFiles (formFiles : String → List FileHeader) :
    FilesDest → Option Err × List (Option FileAssign)
  | .nonPtr => (some (.plain "bind: non-pointer passed to bindFiles"), [])
  | .ptrNonStruct => (none, [])
  | .ptrStruct fields => (none, fields.map (bindFilesField formFiles))

/-! ### Specification-side characterization of the first failure -/

/-- `FirstFailure v p d ch e` states, following the claim's wording, that
the recursive pass over `v` (rooted at path `p`, depth `d`) first fails
at the node reached from `v` by the chain of member names `ch`, whose
own `Bind` method returned the raw cause `e`: every descriptor member
before the chain member succeeds, the chain descends through at most one
level of non-nil indirection per member, and the failing node is either
a non-struct capability value or a struct whose members all succeeded
but whose own `Bind` failed. -/
inductive FirstFailure : GoVal → String → Nat → List String → Err → Prop where
  | leaf (p : String) (d : Nat) (e : Err) (h : d ≤ maxRecursionDepth) :
      FirstFailure (.prim true (some e)) p d [] e
  | deref (w : GoVal) (p : String) (d : Nat) (ch : List String) (e : Err)
      (hw : implB w = true) (hff : FirstFailure w p d ch e) :
      FirstFailure (.ptrTo w) p d ch e
  | ownBind (fields : List GoField) (p : String) (d : Nat) (e : Err)
      (h : d ≤ maxRecursionDepth)
      (hall : ∀ f ∈ descriptor fields, (memberRun p d f).2 = none) :
      FirstFailure (.struc true (some e) fields) p d [] e
  | memberFail (fields pre post : List GoField) (f : GoField)
      (own : Option Err) (p : String) (d : Nat) (ch : List String) (e : Err)
      (h : d ≤ maxRecursionDepth)
      (hdesc : descriptor fields = pre ++ f :: post)
      (hpre : ∀ g ∈ pre, (memberRun p d g).2 = none)
      (hrec : FirstFailure f.val (dotJoin p f.name) (d + 1) ch e) :
      FirstFailure (.struc true own fields) p d (f.name :: ch) e

/-! ### Depth-limit behavior on a self-nested value -/

/-- The Go shape `type Recursive struct{ Inner *Recursive }` with
`Bind` on `*Recursive` returning nil, nested `k` levels below the root:
`nestVal k` has `k` non-nil `Inner` links. -/
def nestVal : Nat → GoVal
  | 0 => .struc true none []
  | n + 1 => .struc true none [.mk "Inner" false true (.ptrTo (nestVal n))]

/-- `p` extended by `m` dot-joined `"Inner"` segments. -/
def innerPath (p : String) : Nat → String
  | 0 => p
  | m + 1 => innerPath (dotJoin p "Inner") m

/-- Clearing the embedded mark of a field (treating it as if declared
directly): the scan and the pass never consult the mark. -/
def GoField.clearEmbedded : GoField → GoField
  | .mk n _ i v => .mk n false i v

/-! ### Unfolding lemmas for the recursive binder -/

theorem binderT_depth_exceeded (v : GoVal) (p : String) (d : Nat)
    (h : maxRecursionDepth < d) :
    binderT v p d = ([], some depthExceededErr) := by
  cases v <;> simp [binderT, h]

theorem binderT_ptrNil (p : String) (d : Nat) (h : d ≤ maxRecursionDepth) :
    binderT .ptrNil p d = ([], none) := by
  simp [binderT, Nat.not_lt.mpr h]

theorem binderT_ptrTo (w : GoVal) (p : String) (d : Nat)
    (h : d ≤ maxRecursionDepth) :
    binderT (.ptrTo w) p d = derefed w p d := by
  simp [binderT, Nat.not_lt.mpr h]

theorem binderT_prim (i : Bool) (res : Option Err) (p : String) (d : Nat)
    (h : d ≤ maxRecursionDepth) :
    binderT (.prim i res) p d = derefed (.prim i res) p d := by
  simp [binderT, Nat.not_lt.mpr h]

theorem binderT_struc (i : Bool) (own : Option Err) (fields : List GoField)
    (p : String) (d : Nat) (h : d ≤ maxRecursionDepth) :
    binderT (.struc i own fields) p d = derefed (.struc i own fields) p d := by
  simp [binderT, Nat.not_lt.mpr h]

theorem derefed_not_impl (rv : GoVal) (p : String) (d : Nat)
    (h : implB rv = false) : derefed rv p d = ([], none) := by
  cases rv with
  | ptrNil => simp [derefed, implB]
  | ptrTo w => simp [derefed, implB]
  | prim i res => cases res <;> simp_all [derefed, implB]
  | struc i own fields => simp_all [derefed, implB]

theorem derefed_prim_ok (p : String) (d : Nat) :
    derefed (.prim true none) p d = ([p], none) := by
  simp [derefed, implB]

theorem derefed_prim_fail (e : Err) (p : String) (d : Nat) :
    derefed (.prim true (some e)) p d = ([p], some (.bindError p e)) := by
  simp [derefed, implB]

theorem derefed_struc_member_err (own : Option Err) (fields : List GoField)
    (p : String) (d : Nat) (tr : List String) (e : Err)
    (h : runFields fields p d = (tr, some e)) :
    derefed (.struc true own fields) p d = (tr, some e) := by
  simp [derefed, implB, h]

theorem derefed_struc_own_fail (e : Err) (fields : List GoField)
    (p : String) (d : Nat) (tr : List String)
    (h : runFields fields p d = (tr, none)) :
    derefed (.struc true (some e) fields) p d
      = (tr ++ [p], some (.bindError p e)) := by
  simp [derefed, implB, h]

theorem derefed_struc_own_ok (fields : List GoField)
    (p : String) (d : Nat) (tr : List String)
    (h : runFields fields p d = (tr, none)) :
    derefed (.struc true none fields) p d = (tr ++ [p], none) := by
  simp [derefed, implB, h]

theorem runFields_nil (p : String) (d : Nat) :
    runFields [] p d = ([], none) := by
  simp [runFields]

theorem runFields_cons_skip (nm : String) (emb : Bool) (fval : GoVal)
    (rest : List GoField) (p : String) (d : Nat) :
    runFields (.mk nm emb false fval :: rest) p d = runFields rest p d := by
  simp [runFields]

theorem runFields_cons_fail (nm : String) (emb : Bool) (fval : GoVal)
    (rest : List GoField) (p : String) (d : Nat) (tr : List String) (e : Err)
    (h : binderT fval (dotJoin p nm) (d + 1) = (tr, some e)) :
    runFields (.mk nm emb true fval :: rest) p d
      = (tr, some (if e.isBindError then e else .bindError (dotJoin p nm) e)) := by
  simp [runFields, h]

theorem runFields_cons_ok (nm : String) (emb : Bool) (fval : GoVal)
    (rest : List GoField) (p : String) (d : Nat) (tr : List String)
    (h : binderT fval (dotJoin p nm) (d + 1) = (tr, none)) :
    runFields (.mk nm emb true fval :: rest) p d
      = (tr ++ (runFields rest p d).1, (runFields rest p d).2) := by
  simp [runFields, h]

theorem descriptor_cons_true (nm : String) (emb : Bool) (fval : GoVal)
    (rest : List GoField) :
    descriptor (.mk nm emb true fval :: rest)
      = .mk nm emb true fval :: descriptor rest := by
  simp [descriptor, GoField.declImpl]

theorem descriptor_cons_false (nm : String) (emb : Bool) (fval : GoVal)
    (rest : List GoField) :
    descriptor (.mk nm emb false fval :: rest) = descriptor rest := by
  simp [descriptor, GoField.declImpl]

theorem memberRun_mk (p : String) (d : Nat) (nm : String) (emb impl : Bool)
    (fval : GoVal) :
    memberRun p d (.mk nm emb impl fval) = binderT fval (dotJoin p nm) (d + 1) :=
  rfl

/-- If every descriptor member's recursive run succeeds, the loop returns
no error and its trace is the members' traces joined in declaration
order. -/
theorem runFields_all_ok (fields : List GoField) (p : String) (d : Nat)
    (h : ∀ f ∈ descriptor fields, (memberRun p d f).2 = none) :
    runFields fields p d =
      (((descriptor fields).map fun f => (memberRun p d f).1).flatten, none) := by
  induction fields with
  | nil => simp [runFields_nil, descriptor]
  | cons g rest ih =>
    obtain ⟨nm, emb, impl, fval⟩ := g
    cases impl with
    | false =>
      rw [descriptor_cons_false] at h ⊢
      rw [runFields_cons_skip]
      exact ih h
    | true =>
      rw [descriptor_cons_true] at h ⊢
      have hmem : (memberRun p d (.mk nm emb true fval)).2 = none :=
        h _ (by simp)
      cases hbe : binderT fval (dotJoin p nm) (d + 1) with
      | mk tr r =>
        have hr : r = none := by
          rw [memberRun_mk, hbe] at hmem
          exact hmem
        subst hr
        rw [runFields_cons_ok nm emb fval rest p d tr hbe]
        rw [ih (fun f hf => h f (by simp [hf]))]
        simp [memberRun_mk, hbe]

/-- If the descriptor members before `f` succeed and `f`'s recursive run
fails with `e`, the loop stops at `f`: the trace covers only the
members up to and including `f`, and `e` is propagated unchanged when it
is already a BindError, else wrapped at `f`'s full path. -/
theorem runFields_first_fail (fields : List GoField) (pre post : List GoField)
    (f : GoField) (p : String) (d : Nat) (e : Err)
    (hdesc : descriptor fields = pre ++ f :: post)
    (hpre : ∀ g ∈ pre, (memberRun p d g).2 = none)
    (hf : (memberRun p d f).2 = some e) :
    runFields fields p d =
      ((pre.map fun g => (memberRun p d g).1).flatten ++ (memberRun p d f).1,
       some (if e.isBindError then e else .bindError (dotJoin p f.name) e)) := by
  induction fields generalizing pre with
  | nil => simp [descriptor] at hdesc
  | cons g rest ih =>
    obtain ⟨nm, emb, impl, fval⟩ := g
    cases impl with
    | false =>
      rw [descriptor_cons_false] at hdesc
      rw [runFields_cons_skip]
      exact ih pre hdesc hpre
    | true =>
      rw [descriptor_cons_true] at hdesc
      cases pre with
      | nil =>
        simp only [List.nil_append] at hdesc
        have hfeq : GoField.mk nm emb true fval = f := (List.cons.injEq _ _ _ _).mp hdesc |>.1
        subst hfeq
        cases hbe : binderT fval (dotJoin p nm) (d + 1) with
        | mk tr r =>
          have hr : r = some e := by
            rw [memberRun_mk, hbe] at hf
            exact hf
          subst hr
          rw [runFields_cons_fail nm emb fval rest p d tr e hbe]
          simp [memberRun_mk, hbe, GoField.name]
      | cons q pre2 =>
        simp only [List.cons_append] at hdesc
        have hqeq : GoField.mk nm emb true fval = q := (List.cons.injEq _ _ _ _).mp hdesc |>.1
        have hrest : descriptor rest = pre2 ++ f :: post := (List.cons.injEq _ _ _ _).mp hdesc |>.2
        have hq : (memberRun p d q).2 = none := hpre q (by simp)
        rw [← hqeq] at hq
        cases hbe : binderT fval (dotJoin p nm) (d + 1) with
        | mk tr r =>
          have hr : r = none := by
            rw [memberRun_mk, hbe] at hq
            exact hq
          subst hr
          rw [runFields_cons_ok nm emb fval rest p d tr hbe]
          rw [ih pre2 hrest (fun g hg => hpre g (by simp [hg]))]
          simp [← hqeq, memberRun_mk, hbe]

/-- If the descriptor members before `f` succeed, the loop reaches `f`:
the struct's trace begins with the earlier members' traces followed by
`f`'s own trace. -/
theorem runFields_visits (fields : List GoField) (pre post : List GoField)
    (f : GoField) (p : String) (d : Nat)
    (hdesc : descriptor fields = pre ++ f :: post)
    (hpre : ∀ g ∈ pre, (memberRun p d g).2 = none) :
    ∃ t r, runFields fields p d =
      ((pre.map fun g => (memberRun p d g).1).flatten ++ (memberRun p d f).1 ++ t,
       r) := by
  cases hfr : (memberRun p d f).2 with
  | some e =>
    refine ⟨[], some (if e.isBindError then e else .bindError (dotJoin p f.name) e), ?_⟩
    rw [runFields_first_fail fields pre post f p d e hdesc hpre hfr]
    simp
  | none =>
    induction fields generalizing pre with
    | nil => simp [descriptor] at hdesc
    | cons g rest ih =>
      obtain ⟨nm, emb, impl, fval⟩ := g
      cases impl with
      | false =>
        rw [descriptor_cons_false] at hdesc
        rw [runFields_cons_skip]
        exact ih pre hdesc hpre
      | true =>
        rw [descriptor_cons_true] at hdesc
        cases pre with
        | nil =>
          simp only [List.nil_append] at hdesc
          have hfeq : GoField.mk nm emb true fval = f := (List.cons.injEq _ _ _ _).mp hdesc |>.1
          subst hfeq
          cases hbe : binderT fval (dotJoin p nm) (d + 1) with
          | mk tr r =>
            have hr : r = none := by
              rw [memberRun_mk, hbe] at hfr
              exact hfr
            subst hr
            rw [runFields_cons_ok nm emb fval rest p d tr hbe]
            exact ⟨(runFields rest p d).1, (runFields rest p d).2,
              by simp [memberRun_mk, hbe]⟩
        | cons q pre2 =>
          simp only [List.cons_append] at hdesc
          have hqeq : GoField.mk nm emb true fval = q := (List.cons.injEq _ _ _ _).mp hdesc |>.1
          have hrest : descriptor rest = pre2 ++ f :: post := (List.cons.injEq _ _ _ _).mp hdesc |>.2
          have hq : (memberRun p d q).2 = none := hpre q (by simp)
          rw [← hqeq] at hq
          cases hbe : binderT fval (dotJoin p nm) (d + 1) with
          | mk tr r =>
            have hr : r = none := by
              rw [memberRun_mk, hbe] at hq
              exact hq
            subst hr
            rw [runFields_cons_ok nm emb fval rest p d tr hbe]
            obtain ⟨t, r2, hrun⟩ := ih pre2 hrest (fun g hg => hpre g (List.mem_cons_of_mem q hg))
            refine ⟨t, r2, ?_⟩
            rw [hrun]
            simp [← hqeq, memberRun_mk, hbe]

/-- Every error the member loop returns is a BindError: an inner
BindError is propagated as-is and anything else is wrapped. -/
theorem runFields_err_isBindError (fields : List GoField) (p : String)
    (d : Nat) (e : Err) (h : (runFields fields p d).2 = some e) :
    e.isBindError = true := by
  induction fields with
  | nil => simp [runFields_nil] at h
  | cons g rest ih =>
    obtain ⟨nm, emb, impl, fval⟩ := g
    cases impl with
    | false =>
      rw [runFields_cons_skip] at h
      exact ih h
    | true =>
      cases hbe : binderT fval (dotJoin p nm) (d + 1) with
      | mk tr r =>
        cases r with
        | some e0 =>
          rw [runFields_cons_fail nm emb fval rest p d tr e0 hbe] at h
          simp only at h
          have he : (if e0.isBindError then e0 else Err.bindError (dotJoin p nm) e0) = e := by
            exact Option.some.inj h
          cases he0 : e0.isBindError with
          | true => rw [he0] at he; simp at he; rw [← he]; exact he0
          | false => rw [he0] at he; simp at he; rw [← he]; rfl
        | none =>
          rw [runFields_cons_ok nm emb fval rest p d tr hbe] at h
          simp only at h
          exact ih h

/-- Every error `derefed` returns is a BindError. -/
theorem derefed_err_isBindError (rv : GoVal) (p : String) (d : Nat) (e : Err)
    (h : (derefed rv p d).2 = some e) : e.isBindError = true := by
  cases him : implB rv with
  | false => rw [derefed_not_impl rv p d him] at h; simp at h
  | true =>
    cases rv with
    | ptrNil => simp [implB] at him
    | ptrTo w => simp [implB] at him
    | prim i res =>
      have : i = true := him
      subst this
      cases res with
      | none => rw [derefed_prim_ok] at h; simp at h
      | some e0 =>
        rw [derefed_prim_fail] at h
        simp at h
        rw [← h]
        rfl
    | struc i own fields =>
      have : i = true := him
      subst this
      cases hr : runFields fields p d with
      | mk tr r =>
        cases r with
        | some e0 =>
          rw [derefed_struc_member_err own fields p d tr e0 hr] at h
          simp at h
          rw [← h]
          exact runFields_err_isBindError fields p d e0 (by rw [hr])
        | none =>
          cases own with
          | none => rw [derefed_struc_own_ok fields p d tr hr] at h; simp at h
          | some e0 =>
            rw [derefed_struc_own_fail e0 fields p d tr hr] at h
            simp at h
            rw [← h]
            rfl

/-- Every error `binder` returns from a frame within the depth budget is
a BindError (the bare depth error can only arise past the budget). -/
theorem binderT_err_isBindError (v : GoVal) (p : String) (d : Nat) (e : Err)
    (hd : d ≤ maxRecursionDepth) (h : (binderT v p d).2 = some e) :
    e.isBindError = true := by
  cases v with
  | ptrNil => rw [binderT_ptrNil p d hd] at h; simp at h
  | ptrTo w =>
    rw [binderT_ptrTo w p d hd] at h
    exact derefed_err_isBindError w p d e h
  | prim i res =>
    rw [binderT_prim i res p d hd] at h
    exact derefed_err_isBindError _ p d e h
  | struc i own fields =>
    rw [binderT_struc i own fields p d hd] at h
    exact derefed_err_isBindError _ p d e h

theorem firstFailure_depth_le (v : GoVal) (p : String) (d : Nat)
    (ch : List String) (e : Err) (h : FirstFailure v p d ch e) :
    d ≤ maxRecursionDepth := by
  induction h with
  | leaf p d e h => exact h
  | deref w p d ch e hw hff ih => exact ih
  | ownBind fields p d e h hall => exact h
  | memberFail fields pre post f own p d ch e h hdesc hpre hrec ih => exact h

/-- The engine returns exactly the BindError whose field is the
dot-join of the root path with the failure chain, carrying the raw
cause: the wrap happens once, at the deepest frame. -/
theorem firstFailure_binderT (v : GoVal) (p : String) (d : Nat)
    (ch : List String) (e : Err) (h : FirstFailure v p d ch e) :
    (binderT v p d).2 = some (.bindError (ch.foldl dotJoin p) e) := by
  induction h with
  | leaf p d e h =>
    rw [binderT_prim true (some e) p d h, derefed_prim_fail]
    simp
  | deref w p d ch e hw hff ih =>
    rw [binderT_ptrTo w p d (firstFailure_depth_le w p d ch e hff)]
    cases w with
    | ptrNil => simp [implB] at hw
    | ptrTo x => simp [implB] at hw
    | prim i res =>
      rw [binderT_prim i res p d (firstFailure_depth_le _ p d ch e hff)] at ih
      exact ih
    | struc i own fields =>
      rw [binderT_struc i own fields p d (firstFailure_depth_le _ p d ch e hff)] at ih
      exact ih
  | ownBind fields p d e h hall =>
    rw [binderT_struc true (some e) fields p d h]
    have hrun := runFields_all_ok fields p d hall
    rw [derefed_struc_own_fail e fields p d _ hrun]
    simp
  | memberFail fields pre post f own p d ch e h hdesc hpre hrec ih =>
    rw [binderT_struc true own fields p d h]
    have hf2 : (memberRun p d f).2
        = some (.bindError (ch.foldl dotJoin (dotJoin p f.name)) e) := ih
    have hrun := runFields_first_fail fields pre post f p d _ hdesc hpre hf2
    rw [derefed_struc_member_err own fields p d _ _ hrun]
    simp [Err.isBindError, List.foldl_cons]

theorem nestVal_struc (k : Nat) :
    ∃ fl, nestVal k = .struc true none fl := by
  cases k with
  | zero => exact ⟨[], rfl⟩
  | succ n => exact ⟨_, rfl⟩

theorem dotJoin_ne_empty (p n : String) (hn : n ≠ "") : dotJoin p n ≠ "" := by
  unfold dotJoin
  split
  · exact hn
  · intro hc
    have := congrArg String.length hc
    simp [String.length_append] at this
    exact hn (String.ext (List.length_eq_zero.mp this.2))

theorem innerPath_succ (p : String) (m : Nat) :
    innerPath p (m + 1) = innerPath (dotJoin p "Inner") m := rfl

theorem innerPath_ne_empty (m : Nat) (p : String) (hp : p ≠ "") :
    innerPath p m ≠ "" := by
  induction m generalizing p with
  | zero => exact hp
  | succ m ih => exact ih (dotJoin p "Inner") (dotJoin_ne_empty p "Inner" (by decide))

/-- Once the remaining budget `maxRecursionDepth + 1 - d` is at most the
remaining nesting `k`, the pass fails: the bare depth error arises at
depth `maxRecursionDepth + 1`, is wrapped by its caller at the full path
of the deepest visited member, and propagates unchanged. -/
theorem nestVal_depth_err (m : Nat) (p : String) (d k : Nat)
    (hsum : d + m = maxRecursionDepth + 1) (hm : 1 ≤ m) (hk : m ≤ k) :
    (binderT (nestVal k) p d).2
      = some (.bindError (innerPath p m) depthExceededErr) := by
  induction m generalizing p d k with
  | zero => omega
  | succ m ih =>
    have hd : d ≤ maxRecursionDepth := by omega
    cases k with
    | zero => omega
    | succ k2 =>
      show (binderT (.struc true none [.mk "Inner" false true (.ptrTo (nestVal k2))]) p d).2 = _
      rw [binderT_struc true none _ p d hd]
      cases m with
      | zero =>
        have hd1 : maxRecursionDepth < d + 1 := by omega
        have hbe : binderT (.ptrTo (nestVal k2)) (dotJoin p "Inner") (d + 1)
            = ([], some depthExceededErr) :=
          binderT_depth_exceeded _ _ _ hd1
        have hrun := runFields_cons_fail "Inner" false (.ptrTo (nestVal k2)) []
          p d [] depthExceededErr hbe
        rw [derefed_struc_member_err none _ p d _ _ hrun]
        simp [Err.isBindError, depthExceededErr, innerPath]
      | succ m2 =>
        have hd1 : d + 1 ≤ maxRecursionDepth := by omega
        have hih := ih (dotJoin p "Inner") (d + 1) k2 (by omega) (by omega) (by omega)
        obtain ⟨fl, hfl⟩ := nestVal_struc k2
        have hder : (binderT (.ptrTo (nestVal k2)) (dotJoin p "Inner") (d + 1)).2
            = some (.bindError (innerPath (dotJoin p "Inner") (m2 + 1)) depthExceededErr) := by
          rw [binderT_ptrTo _ _ _ hd1]
          rw [hfl] at hih ⊢
          rw [binderT_struc true none fl _ _ hd1] at hih
          exact hih
        cases hbe : binderT (.ptrTo (nestVal k2)) (dotJoin p "Inner") (d + 1) with
        | mk tr r =>
          rw [hbe] at hder
          simp only at hder
          subst hder
          have hrun := runFields_cons_fail "Inner" false (.ptrTo (nestVal k2)) []
            p d tr _ hbe
          rw [derefed_struc_member_err none _ p d _ _ hrun]
          simp [Err.isBindError, innerPath]

/-! ### Content-type resolution lemmas -/

theorem takeWhile_append_stop (p : Char → Bool) (l1 : List Char) (c : Char)
    (l2 : List Char) (h1 : ∀ x ∈ l1, p x = true) (hc : p c = false) :
    (l1 ++ c :: l2).takeWhile p = l1 := by
  induction l1 with
  | nil => simp [List.takeWhile, hc]
  | cons a as ih =>
    have ha : p a = true := h1 a (by simp)
    simp only [List.cons_append, List.takeWhile]
    rw [ha]
    simp [ih (fun x hx => h1 x (by simp [hx]))]

theorem stripParams_of_no_semicolon (m : String) (hm : ∀ c ∈ m.data, c ≠ ';') :
    stripParams m = m := by
  unfold stripParams
  rw [List.takeWhile_eq_self_iff.mpr (by intro x hx; simpa using hm x hx)]

theorem stripParams_semicolon (m rest : String)
    (hm : ∀ c ∈ m.data, c ≠ ';') :
    stripParams (m ++ ";" ++ rest) = m := by
  unfold stripParams
  have hdata : (m ++ ";" ++ rest).data = m.data ++ ';' :: rest.data := by
    rw [String.data_append, String.data_append]
    simp
  rw [hdata,
    takeWhile_append_stop _ _ _ _ (by intro x hx; simpa using hm x hx) (by simp)]

theorem getContentType_semicolon (m rest : String)
    (hm : ∀ c ∈ m.data, c ≠ ';') :
    GetContentType (m ++ ";" ++ rest) = GetContentType m := by
  unfold GetContentType
  rw [stripParams_semicolon m rest hm, stripParams_of_no_semicolon m hm]

theorem Action_none (v : GoVal) : Action none v = (binderT v "" 0).2 := rfl

/-! ### Claim theorems -/

/-- C5: if the decode step of `Action` fails with any cause `e`, `Action`
returns that cause wrapped as a BindError with empty Field, and the
recursive bind pass never starts (no `Bind` invocation is traced). -/
theorem decode_failure_aborts (e : Err) (v : GoVal) :
    ActionT (some e) v = ([], some (.bindError "" e)) := rfl

/-- C6: a nested member that is a nil pointer is a successful no-op for
the recursive bind step: `binder` returns nil with an empty trace (no
capability invocation, nothing visited beneath it), and in a member loop
such a member leaves both the trace and the outcome unchanged. -/
theorem nil_pointer_noop (p : String) (d : Nat) (hd : d ≤ maxRecursionDepth) :
    binderT .ptrNil p d = ([], none)
    ∧ (∀ (nm : String) (emb : Bool) (rest : List GoField),
        d < maxRecursionDepth →
        runFields (.mk nm emb true .ptrNil :: rest) p d = runFields rest p d) := by
  constructor
  · exact binderT_ptrNil p d hd
  · intro nm emb rest hlt
    have hbe : binderT .ptrNil (dotJoin p nm) (d + 1) = ([], none) :=
      binderT_ptrNil _ _ (by omega)
    rw [runFields_cons_ok nm emb .ptrNil rest p d [] hbe]
    simp

theorem nil_pointer_noop_witness :
    binderT .ptrNil "Owner" 3 = ([], none)
    ∧ runFields [.mk "Opt" false true .ptrNil] "" 0 = runFields [] "" 0 :=
  ⟨(nil_pointer_noop "Owner" 3 (by decide)).1,
   (nil_pointer_noop "" 0 (by decide)).2 "Opt" false [] (by decide)⟩

/-- C10: every non-nil error returned by `Action` is a BindError: the
decode wrap, the leaf wrap, the member-failure wrap and the own-Bind
wrap all build one, and the bare depth-limit error is always wrapped by
the caller frame because the depth check cannot fire at depth 0. -/
theorem action_errors_are_bind_errors (dec : Option Err) (v : GoVal) (e : Err)
    (h : Action dec v = some e) : e.isBindError = true := by
  cases dec with
  | some e0 =>
    have h0 : Action (some e0) v = some (.bindError "" e0) := rfl
    rw [h0] at h
    have := Option.some.inj h
    rw [← this]
    rfl
  | none => exact binderT_err_isBindError v "" 0 e (by decide) h

theorem action_errors_are_bind_errors_witness :
    Action (some (.plain "boom")) (.prim true none)
      = some (.bindError "" (.plain "boom"))
    ∧ (Err.bindError "" (.plain "boom")).isBindError = true :=
  ⟨rfl, action_errors_are_bind_errors (some (.plain "boom")) (.prim true none)
    (.bindError "" (.plain "boom")) rfl⟩

/-- C1: bottom-up order.  For a struct that implements the capability,
within the depth budget: when every descriptor member's recursive run
succeeds, the trace is the members' traces joined in declaration order
followed by the aggregate's own invocation (which fires last, wrapped at
the parent path on failure); when the first failing descriptor member is
`f`, the run stops there — the trace covers only the members up to `f`,
later siblings contribute nothing, and the aggregate's own invocation
never runs. -/
theorem binder_bottom_up_order (p : String) (d : Nat) (own : Option Err)
    (fields : List GoField) (hd : d ≤ maxRecursionDepth) :
    ((∀ f ∈ descriptor fields, (memberRun p d f).2 = none) →
      binderT (.struc true own fields) p d =
        (((descriptor fields).map fun f => (memberRun p d f).1).flatten ++ [p],
         Option.map (Err.bindError p) own))
    ∧ (∀ (pre : List GoField) (f : GoField) (post : List GoField) (e : Err),
        descriptor fields = pre ++ f :: post →
        (∀ g ∈ pre, (memberRun p d g).2 = none) →
        (memberRun p d f).2 = some e →
        binderT (.struc true own fields) p d =
          ((pre.map fun g => (memberRun p d g).1).flatten ++ (memberRun p d f).1,
           some (if e.isBindError then e else .bindError (dotJoin p f.name) e))) := by
  constructor
  · intro hall
    rw [binderT_struc true own fields p d hd]
    have hrun := runFields_all_ok fields p d hall
    cases own with
    | some e => rw [derefed_struc_own_fail e fields p d _ hrun]; rfl
    | none => rw [derefed_struc_own_ok fields p d _ hrun]; rfl
  · intro pre f post e hdesc hpre hf
    rw [binderT_struc true own fields p d hd]
    have hrun := runFields_first_fail fields pre post f p d e hdesc hpre hf
    rw [derefed_struc_member_err own fields p d _ _ hrun]

theorem binder_bottom_up_order_witness :
    binderT (.struc true (some (.plain "own"))
        [.mk "A" false true (.prim true none),
         .mk "B" false true (.prim true none)]) "" 0
      = (["A", "B", ""], some (.bindError "" (.plain "own")))
    ∧ binderT (.struc true (some (.plain "own"))
        [.mk "A" false true (.prim true none),
         .mk "B" false true (.prim true (some (.plain "boom")))]) "" 0
      = (["A", "B"], some (.bindError "B" (.plain "boom"))) := by
  constructor
  · have h := (binder_bottom_up_order "" 0 (some (.plain "own"))
      [.mk "A" false true (.prim true none),
       .mk "B" false true (.prim true none)] (by decide)).1
      (by
        intro f hf
        simp [descriptor, GoField.declImpl] at hf
        rcases hf with rfl | rfl <;>
          simp [memberRun, GoField.val, GoField.name, binderT, derefed, implB,
            maxRecursionDepth])
    rw [h]
    simp [descriptor, GoField.declImpl, memberRun, GoField.val, GoField.name,
      binderT, derefed, implB, maxRecursionDepth, dotJoin]
  · have h := (binder_bottom_up_order "" 0 (some (.plain "own"))
      [.mk "A" false true (.prim true none),
       .mk "B" false true (.prim true (some (.plain "boom")))] (by decide)).2
      [.mk "A" false true (.prim true none)]
      (.mk "B" false true (.prim true (some (.plain "boom")))) []
      (.bindError "B" (.plain "boom"))
      (by simp [descriptor, GoField.declImpl])
      (by
        intro g hg
        simp at hg
        subst hg
        simp [memberRun, GoField.val, GoField.name, binderT, derefed, implB,
          maxRecursionDepth])
      (by
        simp [memberRun, GoField.val, GoField.name, binderT, derefed, implB,
          maxRecursionDepth, dotJoin])
    rw [h]
    simp [memberRun, GoField.val, GoField.name, binderT, derefed, implB,
      maxRecursionDepth, dotJoin, Err.isBindError]

/-- C2: a capability failure at depth `d > 0` surfaces from `Action` as
the BindError whose Field is the dot-join of the member-name chain from
the root to the failing node, carrying the raw cause (the path is set
once, at the deepest frame); a member error that is already a BindError
is propagated upward unchanged; the error renders as
`bind failed on field '<path>': <cause>` for a non-empty path and
`bind failed: <cause>` for an empty one, and `Unwrap` returns the
original cause. -/
theorem bind_failure_field_path :
    (∀ (v : GoVal) (ch : List String) (e : Err),
        FirstFailure v "" 0 ch e →
        Action none v = some (.bindError (ch.foldl dotJoin "") e))
    ∧ (∀ (fields pre post : List GoField) (f : GoField) (own : Option Err)
        (p : String) (d : Nat) (e : Err),
        d ≤ maxRecursionDepth →
        descriptor fields = pre ++ f :: post →
        (∀ g ∈ pre, (memberRun p d g).2 = none) →
        (memberRun p d f).2 = some e →
        e.isBindError = true →
        (binderT (.struc true own fields) p d).2 = some e)
    ∧ (∀ (fld : String) (c : Err), fld ≠ "" →
        (Err.bindError fld c).msg = "bind failed on field '" ++ fld ++ "': " ++ c.msg)
    ∧ (∀ c : Err, (Err.bindError "" c).msg = "bind failed: " ++ c.msg)
    ∧ (∀ (fld : String) (c : Err), (Err.bindError fld c).unwrap = some c) := by
  refine ⟨?_, ?_, ?_, ?_, ?_⟩
  · intro v ch e h
    exact firstFailure_binderT v "" 0 ch e h
  · intro fields pre post f own p d e hd hdesc hpre hf hbe
    have hrun := runFields_first_fail fields pre post f p d e hdesc hpre hf
    rw [binderT_struc true own fields p d hd,
      derefed_struc_member_err own fields p d _ _ hrun]
    simp [hbe]
  · intro fld c hf
    simp [Err.msg, hf]
  · intro c
    simp [Err.msg]
  · intro fld c
    rfl

theorem bind_failure_field_path_witness :
    Action none (.struc true none
        [.mk "Middle" false true (.ptrTo (.struc true none
          [.mk "Inner" false true (.prim true (some (.plain "boom")))]))])
      = some (.bindError (["Middle", "Inner"].foldl dotJoin "") (.plain "boom"))
    ∧ ["Middle", "Inner"].foldl dotJoin "" = "Middle.Inner"
    ∧ (Err.bindError "Middle.Inner" (.plain "boom")).msg
        = "bind failed on field 'Middle.Inner': boom"
    ∧ (Err.bindError "Middle.Inner" (.plain "boom")).unwrap
        = some (.plain "boom") := by
  have hleaf : FirstFailure (.prim true (some (.plain "boom")))
      (dotJoin "Middle" "Inner") 2 [] (.plain "boom") :=
    FirstFailure.leaf (dotJoin "Middle" "Inner") 2 (.plain "boom") (by decide)
  have hinner : FirstFailure (.struc true none
      [.mk "Inner" false true (.prim true (some (.plain "boom")))])
      "Middle" 1 ["Inner"] (.plain "boom") :=
    FirstFailure.memberFail _ [] []
      (.mk "Inner" false true (.prim true (some (.plain "boom")))) none
      "Middle" 1 [] (.plain "boom") (by decide) rfl (by simp) hleaf
  have hptr : FirstFailure (.ptrTo (.struc true none
      [.mk "Inner" false true (.prim true (some (.plain "boom")))]))
      "Middle" 1 ["Inner"] (.plain "boom") :=
    FirstFailure.deref _ "Middle" 1 ["Inner"] (.plain "boom") rfl hinner
  have houter : FirstFailure (.struc true none
      [.mk "Middle" false true (.ptrTo (.struc true none
        [.mk "Inner" false true (.prim true (some (.plain "boom")))]))])
      "" 0 ["Middle", "Inner"] (.plain "boom") :=
    FirstFailure.memberFail _ [] []
      (.mk "Middle" false true (.ptrTo (.struc true none
        [.mk "Inner" false true (.prim true (some (.plain "boom")))]))) none
      "" 0 ["Inner"] (.plain "boom") (by decide) rfl (by simp) hptr
  refine ⟨bind_failure_field_path.1 _ _ _ houter, by decide, ?_, ?_⟩
  · have h := bind_failure_field_path.2.2.1 "Middle.Inner" (.plain "boom") (by decide)
    rw [h]
    rfl
  · exact bind_failure_field_path.2.2.2.2 "Middle.Inner" (.plain "boom")

theorem runFields_clearEmbedded (fields : List GoField) (p : String) (d : Nat) :
    runFields (fields.map GoField.clearEmbedded) p d = runFields fields p d := by
  induction fields with
  | nil => simp
  | cons g rest ih =>
    obtain ⟨nm, emb, impl, fval⟩ := g
    cases impl with
    | false =>
      show runFields (.mk nm false false fval :: rest.map GoField.clearEmbedded) p d = _
      rw [runFields_cons_skip, runFields_cons_skip, ih]
    | true =>
      show runFields (.mk nm false true fval :: rest.map GoField.clearEmbedded) p d = _
      cases hbe : binderT fval (dotJoin p nm) (d + 1) with
      | mk tr r =>
        cases r with
        | some e =>
          rw [runFields_cons_fail nm false fval _ p d tr e hbe,
            runFields_cons_fail nm emb fval rest p d tr e hbe]
        | none =>
          rw [runFields_cons_ok nm false fval _ p d tr hbe,
            runFields_cons_ok nm emb fval rest p d tr hbe, ih]

theorem derefed_struc_congr (own : Option Err) (fields1 fields2 : List GoField)
    (p : String) (d : Nat)
    (h : runFields fields1 p d = runFields fields2 p d) :
    derefed (.struc true own fields1) p d = derefed (.struc true own fields2) p d := by
  cases hr : runFields fields2 p d with
  | mk tr r =>
    cases r with
    | some e =>
      rw [derefed_struc_member_err own fields1 p d tr e (h.trans hr),
        derefed_struc_member_err own fields2 p d tr e hr]
    | none =>
      cases own with
      | some e =>
        rw [derefed_struc_own_fail e fields1 p d tr (h.trans hr),
          derefed_struc_own_fail e fields2 p d tr hr]
      | none =>
        rw [derefed_struc_own_ok fields1 p d tr (h.trans hr),
          derefed_struc_own_ok fields2 p d tr hr]

/-- C4: descriptor discovery and visitation.  Every member whose declared
type conforms to the capability is discovered into the descriptor
(irrespective of its embedded mark); discovery and the whole pass are
unchanged by clearing embedded marks (embedded members are treated as if
declared directly, contributing their promoted name to the path); and a
discovered member whose predecessors succeed is actually visited — its
recursive run's trace occurs inside the struct's trace. -/
theorem descriptor_discovers_capability_members :
    (∀ (fields : List GoField) (f : GoField), f ∈ fields → f.declImpl = true →
        f ∈ descriptor fields)
    ∧ (∀ fields : List GoField,
        descriptor (fields.map GoField.clearEmbedded)
          = (descriptor fields).map GoField.clearEmbedded)
    ∧ (∀ (p : String) (d : Nat) (i : Bool) (own : Option Err)
        (fields : List GoField),
        binderT (.struc i own (fields.map GoField.clearEmbedded)) p d
          = binderT (.struc i own fields) p d)
    ∧ (∀ (p : String) (d : Nat) (own : Option Err)
        (fields pre post : List GoField) (f : GoField),
        d ≤ maxRecursionDepth →
        descriptor fields = pre ++ f :: post →
        (∀ g ∈ pre, (memberRun p d g).2 = none) →
        List.IsInfix (memberRun p d f).1
          (binderT (.struc true own fields) p d).1) := by
  refine ⟨?_, ?_, ?_, ?_⟩
  · intro fields f hmem hdecl
    simp [descriptor, List.mem_filter, hmem, hdecl]
  · intro fields
    induction fields with
    | nil => simp [descriptor]
    | cons g rest ih =>
      obtain ⟨nm, emb, impl, fval⟩ := g
      cases impl with
      | false =>
        show descriptor (.mk nm false false fval :: rest.map GoField.clearEmbedded) = _
        rw [descriptor_cons_false, descriptor_cons_false, ih]
      | true =>
        show descriptor (.mk nm false true fval :: rest.map GoField.clearEmbedded) = _
        rw [descriptor_cons_true, descriptor_cons_true, ih]
        rfl
  · intro p d i own fields
    rcases Nat.lt_or_ge maxRecursionDepth d with hgt | hle
    · rw [binderT_depth_exceeded _ p d hgt, binderT_depth_exceeded _ p d hgt]
    · rw [binderT_struc _ own _ p d hle, binderT_struc i own fields p d hle]
      cases i with
      | false =>
        rw [derefed_not_impl _ p d (by rfl), derefed_not_impl _ p d (by rfl)]
      | true =>
        exact derefed_struc_congr own _ fields p d
          (runFields_clearEmbedded fields p d)
  · intro p d own fields pre post f hd hdesc hpre
    obtain ⟨t, r, hrun⟩ := runFields_visits fields pre post f p d hdesc hpre
    rw [binderT_struc true own fields p d hd]
    cases r with
    | some e =>
      rw [derefed_struc_member_err own fields p d _ e hrun]
      exact ⟨(pre.map fun g => (memberRun p d g).1).flatten, t, by simp⟩
    | none =>
      cases own with
      | some e =>
        rw [derefed_struc_own_fail e fields p d _ hrun]
        exact ⟨(pre.map fun g => (memberRun p d g).1).flatten, t ++ [p], by simp⟩
      | none =>
        rw [derefed_struc_own_ok fields p d _ hrun]
        exact ⟨(pre.map fun g => (memberRun p d g).1).flatten, t ++ [p], by simp⟩

theorem descriptor_discovers_capability_members_witness :
    GoField.mk "Emb" true true (.prim true none)
      ∈ descriptor [.mk "Emb" true true (.prim true none)]
    ∧ List.IsInfix (memberRun "" 0 (.mk "Emb" true true (.prim true none))).1
        (binderT (.struc true none [.mk "Emb" true true (.prim true none)]) "" 0).1 := by
  constructor
  · exact descriptor_discovers_capability_members.1
      [.mk "Emb" true true (.prim true none)]
      (.mk "Emb" true true (.prim true none)) (by simp) rfl
  · exact descriptor_discovers_capability_members.2.2.2 "" 0 none
      [.mk "Emb" true true (.prim true none)] [] []
      (.mk "Emb" true true (.prim true none)) (by decide) rfl (by simp)

/-- C3 counterexample: on 1001 levels of self-nesting the recursion
limit fires, but — contrary to the claim — the failure IS returned
wrapped as a normal field error: a BindError carrying a non-empty field
path (the caller frame wraps the bare depth error at line 369 because it
is not yet a BindError). -/
theorem depth_limit_wrapped_counterexample :
    Action none (nestVal 1001)
      = some (.bindError (innerPath "" 1001) depthExceededErr)
    ∧ innerPath "" 1001 ≠ ""
    ∧ (Err.bindError (innerPath "" 1001) depthExceededErr).isBindError = true := by
  refine ⟨?_, ?_, rfl⟩
  · rw [Action_none]
    exact nestVal_depth_err 1001 "" 0 1001 (by decide) (by decide) (by decide)
  · have h : (1001 : Nat) = 1000 + 1 := by norm_num
    rw [h, innerPath_succ]
    exact innerPath_ne_empty 1000 _ (dotJoin_ne_empty "" "Inner" (by decide))

/-- C3 amended: when the nesting depth strictly exceeds the fixed
ceiling of 1000, `Action` fails, the cause carries the distinctive
recursion-limit message (distinguishable from validation failures), and
the failure is returned wrapped exactly once as a BindError whose field
path points at the deepest visited member (the depth error is bare only
inside the recursion; the caller frame wraps it before returning, and
from there it propagates unchanged). -/
theorem depth_limit_exceeded_amended (n : Nat) (hn : 1001 ≤ n) :
    Action none (nestVal n)
      = some (.bindError (innerPath "" 1001) depthExceededErr)
    ∧ depthExceededErr.msg = "max recursion depth (1000) exceeded"
    ∧ (Err.bindError (innerPath "" 1001) depthExceededErr).unwrap
        = some depthExceededErr := by
  refine ⟨?_, by decide, rfl⟩
  rw [Action_none]
  exact nestVal_depth_err 1001 "" 0 n (by decide) (by decide) hn

theorem depth_limit_exceeded_amended_witness :
    1001 ≤ 1001
    ∧ Action none (nestVal 1001)
        = some (.bindError (innerPath "" 1001) depthExceededErr) :=
  ⟨by decide, (depth_limit_exceeded_amended 1001 (by decide)).1⟩

/-- C7: `GetContentType` is total by construction; for every recognized
media type, an arbitrary trailing `;`-parameter suffix is stripped and
surrounding whitespace trimmed, yielding the same kind as the bare type
(which is never Unknown); matching is exact and case-sensitive — case
variants, prefixes and wildcards resolve to Unknown. -/
theorem content_type_param_stripping :
    (∀ m ∈ recognizedTypes,
        (∀ rest, GetContentType (m ++ ";" ++ rest) = GetContentType m)
        ∧ GetContentType m ≠ ContentType.unknown
        ∧ GetContentType (" " ++ m ++ " ") = GetContentType m)
    ∧ GetContentType "APPLICATION/JSON" = ContentType.unknown
    ∧ GetContentType "application/jso" = ContentType.unknown
    ∧ GetContentType "application/jsonx" = ContentType.unknown := by
  refine ⟨?_, by decide, by decide, by decide⟩
  intro m hm
  simp only [recognizedTypes, List.mem_cons, List.not_mem_nil, or_false] at hm
  rcases hm with rfl | rfl | rfl | rfl | rfl | rfl | rfl | rfl | rfl | rfl | rfl | rfl <;>
    exact ⟨fun rest => getContentType_semicolon _ rest (by decide), by decide, by decide⟩

theorem content_type_param_stripping_witness :
    "application/json" ∈ recognizedTypes
    ∧ GetContentType ("application/json" ++ ";" ++ " charset=utf-8")
        = GetContentType "application/json" :=
  ⟨by decide,
   ((content_type_param_stripping.1 "application/json" (by decide)).1 " charset=utf-8")⟩

/-- C8: `DefaultDecoder` fails with the unsupported-content-type error
exactly when the request's Content-Type resolves to Unknown or to a kind
with no registered decoder (given that no decoder is registered for
Unknown and registered decoders do not themselves return that exact
error), and otherwise delegates to the registered decoder; the built-in
registry registers nothing for Unknown. -/
theorem default_decoder_unsupported :
    (∀ (reg : ContentType → Option (Request → Option Err)) (r : Request),
        reg ContentType.unknown = none →
        (∀ fn, reg (GetContentType r.contentType) = some fn →
            fn r ≠ some unsupportedContentTypeErr) →
        ((DefaultDecoder reg r = some unsupportedContentTypeErr
            ↔ (GetContentType r.contentType = ContentType.unknown
                ∨ reg (GetContentType r.contentType) = none))
         ∧ (∀ fn, reg (GetContentType r.contentType) = some fn →
              DefaultDecoder reg r = fn r)))
    ∧ (∀ dj dx df dm,
        builtinRegistry dj dx df dm ContentType.unknown = none) := by
  constructor
  · intro reg r hunk hclean
    have hdd : DefaultDecoder reg r
        = (match reg (GetContentType r.contentType) with
          | some fn => fn r
          | none => some unsupportedContentTypeErr) := rfl
    constructor
    · cases hreg : reg (GetContentType r.contentType) with
      | none =>
        constructor
        · intro _
          exact Or.inr rfl
        · intro _
          rw [hdd, hreg]
      | some fn =>
        constructor
        · intro hfail
          rw [hdd, hreg] at hfail
          exact absurd hfail (hclean fn hreg)
        · intro hcase
          exfalso
          rcases hcase with hu | hnone
          · rw [hu] at hreg
            rw [hreg] at hunk
            exact Option.noConfusion hunk
          · exact Option.noConfusion hnone
    · intro fn hfn
      rw [hdd, hfn]
  · intro dj dx df dm
    rfl

theorem default_decoder_unsupported_witness :
    DefaultDecoder (builtinRegistry (fun _ => none) (fun _ => none)
        (fun _ => none) (fun _ => none)) ⟨"image/png"⟩
      = some unsupportedContentTypeErr
    ∧ DefaultDecoder (builtinRegistry (fun _ => none) (fun _ => none)
        (fun _ => none) (fun _ => none)) ⟨"application/json"⟩ = none := by
  constructor
  · exact ((default_decoder_unsupported.1
      (builtinRegistry (fun _ => none) (fun _ => none) (fun _ => none) (fun _ => none))
      ⟨"image/png"⟩ rfl
      (by
        intro fn hfn
        have hct : GetContentType (Request.contentType ⟨"image/png"⟩)
            = ContentType.unknown := by decide
        rw [hct] at hfn
        exact Option.noConfusion hfn)).1).mpr
      (Or.inl (by decide))
  · have h := (default_decoder_unsupported.1
      (builtinRegistry (fun _ => none) (fun _ => none) (fun _ => none) (fun _ => none))
      ⟨"application/json"⟩ rfl
      (by
        intro fn hfn
        have hct : GetContentType (Request.contentType ⟨"application/json"⟩)
            = ContentType.json := by decide
        rw [hct] at hfn
        have hfneq : (fun _ => none : Request → Option Err) = fn := Option.some.inj hfn
        rw [← hfneq]
        intro hc
        exact Option.noConfusion hc)).2
      (fun _ => none)
      (by
        have hct : GetContentType (Request.contentType ⟨"application/json"⟩)
            = ContentType.json := by decide
        rw [hct]
        rfl)
    exact h

/-- C9: the file-field populator fails (with the invalid-argument error)
iff the destination is not a pointer; a pointer to a non-struct is a
successful no-op; per tagged member with at least one uploaded file
under its tag and an assignable slot, the first file is assigned for the
single-handle shape and the whole sequence for the slice shape; an
absent tag, an empty upload list, a non-assignable slot or any other
declared type leaves the member untouched without failing. -/
theorem bindFiles_assignment :
    ∀ formFiles : String → List FileHeader,
      (∀ (dst : FilesDest) (e : Err),
          ((bindFiles formFiles dst).1 = some e
            ↔ (dst = FilesDest.nonPtr
                ∧ e = .plain "bind: non-pointer passed to bindFiles")))
      ∧ bindFiles formFiles FilesDest.ptrNonStruct = (none, [])
      ∧ (∀ fields : List FormField,
          bindFiles formFiles (.ptrStruct fields)
            = (none, fields.map (bindFilesField formFiles)))
      ∧ (∀ f : FormField,
          (bindFilesField formFiles f = none
            ↔ (f.tag = "" ∨ formFiles f.tag = [] ∨ f.canSet = false
                ∨ f.kind = FFKind.other))
          ∧ (∀ (h0 : FileHeader) (hs : List FileHeader),
              formFiles f.tag = h0 :: hs → f.tag ≠ "" → f.canSet = true →
              (f.kind = FFKind.fileHeaderPtr →
                bindFilesField formFiles f = some (.one h0))
              ∧ (f.kind = FFKind.fileHeaderSlice →
                bindFilesField formFiles f = some (.many (h0 :: hs))))) := by
  intro formFiles
  refine ⟨?_, rfl, fun fields => rfl, ?_⟩
  · intro dst e
    cases dst with
    | nonPtr =>
      constructor
      · intro h
        exact ⟨rfl, (Option.some.inj h).symm⟩
      · intro ⟨_, he⟩
        rw [he]
        rfl
    | ptrNonStruct =>
      constructor
      · intro h
        exact Option.noConfusion h
      · intro ⟨hdst, _⟩
        exact FilesDest.noConfusion hdst
    | ptrStruct fields =>
      constructor
      · intro h
        exact Option.noConfusion h
      · intro ⟨hdst, _⟩
        exact FilesDest.noConfusion hdst
  · intro f
    obtain ⟨tag, canSet, kind⟩ := f
    constructor
    · show (bindFilesField formFiles ⟨tag, canSet, kind⟩ = none ↔ _)
      unfold bindFilesField
      rcases htag : decide (tag = "") with _ | _
      · simp only [decide_eq_false_iff_not] at htag
        simp only [if_neg htag]
        cases hfiles : formFiles tag with
        | nil => simp [htag, hfiles]
        | cons h0 hs =>
          cases hset : canSet with
          | false => simp [htag, hfiles, hset]
          | true =>
            cases kind <;> simp [htag, hfiles, hset]
      · simp only [decide_eq_true_eq] at htag
        simp [htag]
    · intro h0 hs hfiles htag hset
      dsimp only at hfiles htag hset
      subst hset
      constructor
      · intro hkind
        dsimp only at hkind
        subst hkind
        unfold bindFilesField
        simp [htag, hfiles]
      · intro hkind
        dsimp only at hkind
        subst hkind
        unfold bindFilesField
        simp [htag, hfiles]

theorem bindFiles_assignment_witness :
    (bindFiles (fun t => if t = "avatar" then [⟨7⟩] else []) FilesDest.nonPtr).1
      = some (.plain "bind: non-pointer passed to bindFiles")
    ∧ bindFilesField (fun t => if t = "avatar" then [⟨7⟩] else [])
        ⟨"avatar", true, FFKind.fileHeaderPtr⟩ = some (.one ⟨7⟩) := by
  constructor
  · exact ((bindFiles_assignment (fun t => if t = "avatar" then [⟨7⟩] else [])).1
      FilesDest.nonPtr (.plain "bind: non-pointer passed to bindFiles")).mpr
      ⟨rfl, rfl⟩
  · exact (((bindFiles_assignment (fun t => if t = "avatar" then [⟨7⟩] else [])).2.2.2
      ⟨"avatar", true, FFKind.fileHeaderPtr⟩).2 ⟨7⟩ [] (by simp) (by decide) rfl).1 rfl

end BindPkg
